import Mathlib

/-!
Verification development for the krenk orchestration engine.

Shallow embedding of the orchestrator core (src/orchestrator/brain.ts,
scheduler.ts, supervisor.ts, plan-parser.ts, workflow.ts, engine.ts and
agents/spawner.ts) into Lean, together with theorems settling the spec
claims about the Director redo budget, the scheduler batching contract,
the supervisor health classification and one-shot warnings, the revision
counter, resume behaviour, plan parsing and agent-result reconstruction.
-/

namespace Krenk

/- ── String utilities (JS String.includes / regex-alternation tests) ── -/

/-- Substring test on character lists: `containsSub needle hay` is true iff
`needle` occurs contiguously in `hay` (JS `String.includes`). -/
def containsSub (needle : List Char) : List Char → Bool
  | [] => needle.isEmpty
  | c :: t => needle.isPrefixOf (c :: t) || containsSub needle t

/-- JS `hay.includes(needle)`. -/
def strContains (hay needle : String) : Bool :=
  containsSub needle.data hay.data

/-- Case-insensitive containment: models a case-insensitive regex
alternation branch testing for a fixed lowercase word. -/
def strContainsCI (hay needle : String) : Bool :=
  strContains hay.toLower needle

/- ── MasterBrain (src/orchestrator/brain.ts) ─────────────────────────── -/

/-- Result of one external agent run (agents/spawner.ts `AgentResult`);
fields not consulted by `reviewOutput` are omitted. -/
structure AgentResult where
  output : String
  success : Bool
  exitCode : Int
  deriving Repr, DecidableEq

/-- The Director's verdict kind (brain.ts `BrainVerdict.verdict`). -/
inductive Verdict
  | accept
  | redo
  | skip
  deriving Repr, DecidableEq

/-- brain.ts `BrainVerdict`. -/
structure BrainVerdict where
  verdict : Verdict
  notes : String
  correction : Option String
  deriving Repr, DecidableEq

/-- brain.ts `MasterBrain.MAX_REDOS`. -/
def MAX_REDOS : Nat := 2

/-- brain.ts `MasterBrain.checkQuality`: fixed per-role structural
expectation, each regex an alternation of literal words tested
case-insensitively. -/
def checkQuality (role output : String) : Option String :=
  if role = "architect" &&
      !(strContainsCI output "file" || strContainsCI output "directory" ||
        strContainsCI output "structure") then
    some "Missing file structure / directory layout"
  else if role = "strategist" &&
      !(strContainsCI output "task" || strContainsCI output "step" ||
        strContainsCI output "todo" || strContainsCI output "- [") then
    some "Missing concrete tasks"
  else if role = "guardian" &&
      !(strContainsCI output "pass" || strContainsCI output "fail" ||
        strContainsCI output "test") then
    some "Missing test results — did tests actually run?"
  else
    none

/-- brain.ts `MasterBrain.extractErrors`: error-looking lines of the
output (up to 15), or the output tail (last 500 chars) when none match. -/
def extractErrors (output : String) : String :=
  let lines := output.splitOn "\n"
  let errs := (lines.filter (fun l =>
    strContainsCI l "error" || strContainsCI l "failed" ||
    strContainsCI l "exception" || strContainsCI l "enoent" ||
    strContainsCI l "cannot find")).take 15
  if errs.length > 0 then String.intercalate "\n" errs
  else ⟨output.data.drop (output.data.length - 500)⟩

/-- brain.ts `MasterBrain.reviewOutput`, restricted to the single role
being reviewed: takes the role's current redo count (`redoCounts.get(role)
|| 0`) and returns the verdict together with the updated count. The
shared-memory writes and event emissions are side effects that do not
influence the verdict and are not modelled. -/
def reviewOutput (redos : Nat) (role : String) (result : AgentResult) :
    BrainVerdict × Nat :=
  if result.output.trim.length < 50 then
    if result.success then
      (⟨.accept, "Minimal output", none⟩, redos)
    else if redos < MAX_REDOS then
      (⟨.redo, "Failed with no output",
        some "The previous attempt failed. Please try again carefully."⟩,
       redos + 1)
    else
      (⟨.accept, "Max redos reached", none⟩, redos)
  else if result.success = false ∧ redos < MAX_REDOS then
    (⟨.redo, "Failed (exit " ++ toString result.exitCode ++ ")",
      some ("Previous attempt failed:\n\n" ++ extractErrors result.output ++
        "\n\nPlease fix and try again.")⟩,
     redos + 1)
  else
    match checkQuality role result.output with
    | some issue =>
      if redos < MAX_REDOS then
        (⟨.redo, issue,
          some ("Quality review found issues:\n\n" ++ issue ++
            "\n\nPlease address these.")⟩,
         redos + 1)
      else
        (⟨.accept, "OK", none⟩, redos)
    | none => (⟨.accept, "OK", none⟩, redos)

/-- Iterate `reviewOutput` over a sequence of results for one role,
returning the final redo count and the number of redo verdicts issued. -/
def reviewRun (role : String) : Nat → List AgentResult → Nat × Nat
  | redos, [] => (redos, 0)
  | redos, r :: rs =>
    let v := reviewOutput redos role r
    let rest := reviewRun role v.2 rs
    (rest.1, (if v.1.verdict = .redo then 1 else 0) + rest.2)

/-- A review outcome the spec calls disqualifying: a failed result
(near-empty or not) or a failed role-specific quality check. -/
def disqualifying (role : String) (r : AgentResult) : Prop :=
  r.success = false ∨ checkQuality role r.output ≠ none

instance (role : String) (r : AgentResult) :
    Decidable (disqualifying role r) := by
  unfold disqualifying; infer_instance

/- ── ProcessSupervisor (src/orchestrator/supervisor.ts) ──────────────── -/

/-- supervisor.ts `SupervisorLimits`; resource and time figures are
modelled as exact rationals (JS numbers), `pollIntervalMs` is not
consulted by the classification logic. -/
structure SupervisorLimits where
  maxMemoryMB : ℚ
  maxTimeSeconds : ℚ
  hungWarningSeconds : ℚ
  hungKillSeconds : ℚ
  deriving Repr, DecidableEq

/-- supervisor.ts `DEFAULT_LIMITS`. -/
def DEFAULT_LIMITS : SupervisorLimits :=
  { maxMemoryMB := 512
    maxTimeSeconds := 900
    hungWarningSeconds := 180
    hungKillSeconds := 480 }

/-- supervisor.ts `ProcessStats.status`. -/
inductive HealthStatus
  | healthy
  | warning
  | critical
  deriving Repr, DecidableEq

/-- The per-process status computation inside supervisor.ts
`ProcessSupervisor.getStats`: start `healthy`, overwrite with `warning`
when any soft bound is exceeded, then overwrite with `critical` when any
hard bound is exceeded. -/
def classify (lim : SupervisorLimits) (memoryMB uptime lastOutputAge : ℚ) :
    HealthStatus :=
  let soft : HealthStatus :=
    if memoryMB > lim.maxMemoryMB * 0.8 ∨ uptime > lim.maxTimeSeconds * 0.8 ∨
        lastOutputAge > lim.hungWarningSeconds then .warning else .healthy
  if memoryMB > lim.maxMemoryMB ∨ uptime > lim.maxTimeSeconds ∨
      lastOutputAge > lim.hungKillSeconds then .critical else soft

/-- supervisor.ts `ProcessStats`, for one tracked process. -/
structure ProcessStatsM where
  memoryMB : ℚ
  cpuPercent : ℚ
  uptime : ℚ
  lastOutputAge : ℚ
  status : HealthStatus
  deriving Repr, DecidableEq

/-- The per-entry body of supervisor.ts `ProcessSupervisor.getStats`:
`res` is the batched `pollResources` answer for this pid (`none` when the
query returned no row for it, e.g. the process already exited or `ps`
failed), defaulted to zero via `res?.memoryMB ?? 0` / `res?.cpuPercent ?? 0`. -/
def statsFor (lim : SupervisorLimits) (res : Option (ℚ × ℚ))
    (uptime lastOutputAge : ℚ) : ProcessStatsM :=
  let memoryMB := (res.map Prod.fst).getD 0
  let cpuPercent := (res.map Prod.snd).getD 0
  { memoryMB := memoryMB
    cpuPercent := cpuPercent
    uptime := uptime
    lastOutputAge := lastOutputAge
    status := classify lim memoryMB uptime lastOutputAge }

/-- Which hard threshold, if any, kills a process in supervisor.ts
`ProcessSupervisor.runChecks` (memory, then timeout, then hung — first
match wins, each branch `continue`s). -/
inductive KillReason
  | memory
  | timeout
  | hung
  deriving Repr, DecidableEq

/-- The kill decision of `runChecks` for one process. -/
def killDecision (lim : SupervisorLimits) (m u a : ℚ) : Option KillReason :=
  if m > lim.maxMemoryMB then some .memory
  else if u > lim.maxTimeSeconds then some .timeout
  else if a > lim.hungKillSeconds then some .hung
  else none

/-- Outcome of one `runChecks` poll for one tracked process: whether it
was killed (and removed from tracking), how many `warning` events were
emitted during this poll, and the new `warned` flag. -/
structure PollResult where
  killed : Bool
  warnings : Nat
  warned : Bool
  deriving Repr, DecidableEq

/-- One poll cycle of supervisor.ts `ProcessSupervisor.runChecks` for a
single tracked process with measures `m` (memoryMB), `u` (uptime) and `a`
(lastOutputAge). A killed process emits no warning (the kill branches
`continue`); otherwise the three warning emissions run in source order
(hung, memory, time), each guarded by `!entry.warned` and each setting
`entry.warned = true`. -/
def runChecksStep (lim : SupervisorLimits) (warned : Bool) (m u a : ℚ) :
    PollResult :=
  match killDecision lim m u a with
  | some _ => { killed := true, warnings := 0, warned := warned }
  | none =>
    let p1 : Bool × Nat :=
      if a > lim.hungWarningSeconds ∧ warned = false then (true, 1)
      else (warned, 0)
    let p2 : Bool × Nat :=
      if m > lim.maxMemoryMB * 0.8 ∧ p1.1 = false then (true, 1)
      else (p1.1, 0)
    let p3 : Bool × Nat :=
      if u > lim.maxTimeSeconds * 0.8 ∧ p2.1 = false then (true, 1)
      else (p2.1, 0)
    { killed := false, warnings := p1.2 + p2.2 + p3.2, warned := p3.1 }

/-- Total number of `warning` events a tracked process receives over a
sequence of poll cycles (each poll supplying its measured
memory/uptime/lastOutputAge triple); a killed process is removed from
tracking, so polling stops for it. -/
def runPolls (lim : SupervisorLimits) : Bool → List (ℚ × ℚ × ℚ) → Nat
  | _, [] => 0
  | warned, s :: rest =>
    let r := runChecksStep lim warned s.1 s.2.1 s.2.2
    if r.killed then r.warnings else r.warnings + runPolls lim r.warned rest

/- ── Workflow and engine (workflow.ts, engine.ts) ────────────────────── -/

/-- workflow.ts `STAGES`, restricted to the fields `shouldSkipStage`
reads: stage id, owning role, and lowercased label. -/
def STAGE_INFO : List (String × String × String) :=
  [("analyzing", "analyst", "analyze"),
   ("planning", "strategist", "plan"),
   ("designing", "designer", "design"),
   ("architecting", "architect", "architect"),
   ("coding", "builder", "code"),
   ("qa-planning", "qa", "qa"),
   ("testing", "guardian", "test"),
   ("reviewing", "sentinel", "review"),
   ("securing", "security", "security"),
   ("documenting", "scribe", "docs"),
   ("deploying", "devops", "devops"),
   ("complete", "", "done")]

/-- workflow.ts `shouldSkipStage`: skip by stage id, owning role id, or
lowercase label. -/
def shouldSkipStage (stage : String) (skips : List String) : Bool :=
  match STAGE_INFO.find? (fun info => info.1 = stage) with
  | none => false
  | some info =>
    skips.contains stage || skips.contains info.2.1 || skips.contains info.2.2

/-- engine.ts `OrchestrationEngine.MAX_REVISIONS`. -/
def MAX_REVISIONS : Nat := 2

/-- The revision back-edge guard in `OrchestrationEngine.run` (reviewing
and securing blocks): when the review output contains `NEEDS_REVISION`
and the revision counter is still below the maximum, the counter is
incremented and the coding stage is re-entered (the returned flag). -/
def revisionStep (revisionCount : Nat) (output : String) : Nat × Bool :=
  if strContains output "NEEDS_REVISION" = true ∧ revisionCount < MAX_REVISIONS
  then (revisionCount + 1, true)
  else (revisionCount, false)

/-- The run-local mutable state of `OrchestrationEngine.run` that the
resume claims are about: the `completedStages` array, the stage counter
and the revision counter. -/
structure RunState where
  completedStages : List String
  stageCount : Nat
  revisionCount : Nat
  deriving Repr, DecidableEq

/-- The guard every stage block of `OrchestrationEngine.run` shares:
`!this.shouldSkip(stage) && !resumeCompleted.has(stage)`. -/
def stageGuard (skips resumeCompleted : List String) (stage : String) : Bool :=
  !shouldSkipStage stage skips && !resumeCompleted.contains stage

/-- One ordinary stage block of `OrchestrationEngine.run`: when the guard
(and any extra condition such as `needsDesign()`) holds, the stage runs,
`stageCount++` and `completedStages.push(stage)`. -/
def runStageBlock (skips resumeCompleted : List String) (stage : String)
    (extraGuard : Bool) (st : RunState) : RunState :=
  if stageGuard skips resumeCompleted stage && extraGuard then
    { completedStages := st.completedStages ++ [stage]
      stageCount := st.stageCount + 1
      revisionCount := st.revisionCount }
  else st

/-- A reviewing/securing stage block of `OrchestrationEngine.run`: the
stage runs and is pushed, then the revision back-edge may re-enter the
coding stage once (bumping `stageCount` but pushing nothing). -/
def runRevisionBlock (skips resumeCompleted : List String) (stage : String)
    (output : String) (st : RunState) : RunState :=
  if stageGuard skips resumeCompleted stage then
    let rs := revisionStep st.revisionCount output
    { completedStages := st.completedStages ++ [stage]
      stageCount := st.stageCount + 1 + (if rs.2 then 1 else 0)
      revisionCount := rs.1 }
  else st

/-- The oracle inputs of one engine run that influence its control flow:
whether `needsDesign()` holds when the designing block is reached, and
the review/security agents' outputs (consulted for `NEEDS_REVISION`). -/
structure RunEnv where
  needsDesign : Bool
  sentinelOutput : String
  securityOutput : String

/-- The success path of `OrchestrationEngine.run` (no thrown error, every
spawned agent completes): the eleven stage blocks in source order. The
final state is what the last `saveProgress('complete')` persists —
`completedStages` starts as the EMPTY array and stages found in
`resumeCompletedStages` are skipped without being re-added. -/
def runEngine (skips resumeCompleted : List String) (env : RunEnv) : RunState :=
  let st0 : RunState := ⟨[], 0, 0⟩
  let st1 := runStageBlock skips resumeCompleted "analyzing" true st0
  let st2 := runStageBlock skips resumeCompleted "planning" true st1
  let st3 := runStageBlock skips resumeCompleted "designing" env.needsDesign st2
  let st4 := runStageBlock skips resumeCompleted "architecting" true st3
  let st5 := runStageBlock skips resumeCompleted "coding" true st4
  let st6 := runStageBlock skips resumeCompleted "qa-planning" true st5
  let st7 := runStageBlock skips resumeCompleted "testing" true st6
  let st8 := runRevisionBlock skips resumeCompleted "reviewing" env.sentinelOutput st7
  let st9 := runRevisionBlock skips resumeCompleted "securing" env.securityOutput st8
  let st10 := runStageBlock skips resumeCompleted "documenting" true st9
  runStageBlock skips resumeCompleted "deploying" true st10

/-- The canonical full stage order (workflow.ts `STAGES` minus the
terminal `complete`). -/
def CANONICAL_STAGES : List String :=
  ["analyzing", "planning", "designing", "architecting", "coding",
   "qa-planning", "testing", "reviewing", "securing", "documenting",
   "deploying"]

/- ── Director-driven execution (engine.ts runDirectedAgent) ──────────── -/

/-- JS truthiness of `verdict.correction` (absent or empty string is
falsy). -/
def correctionTruthy : Option String → Bool
  | none => false
  | some c => !c.isEmpty

/-- Outcome of one `OrchestrationEngine.runDirectedAgent` call: how many
times the agent was executed, the result it returns, and the role's final
redo count. -/
structure DirectedOutcome where
  executions : Nat
  finalResult : AgentResult
  finalRedos : Nat
  deriving Repr, DecidableEq

/-- engine.ts `OrchestrationEngine.runDirectedAgent`: run once, review;
when the verdict is `redo` with a (truthy) correction, run exactly once
more and review again, the second verdict being recorded but never acted
on. `r1` and `r2` are the oracle results of the first and (potential)
second execution. -/
def runDirectedAgent (redos : Nat) (role : String) (r1 r2 : AgentResult) :
    DirectedOutcome :=
  let v := reviewOutput redos role r1
  if v.1.verdict = .redo ∧ correctionTruthy v.1.correction = true then
    let v2 := reviewOutput v.2 role r2
    { executions := 2, finalResult := r2, finalRedos := v2.2 }
  else
    { executions := 1, finalResult := r1, finalRedos := v.2 }

/- ── Scheduler (src/orchestrator/scheduler.ts) ───────────────────────── -/

/-- Auxiliary for `chunk` with a positive size `k + 1`: repeatedly take
the next `k + 1` elements, mirroring the `i += size` slicing loop. -/
def chunkAux (k : Nat) : List α → List (List α)
  | [] => []
  | a :: l => (a :: l).take (k + 1) :: chunkAux k (l.drop k)
termination_by l => l.length
decreasing_by simp only [List.length_drop, List.length_cons]; omega

/-- scheduler.ts `Scheduler.chunk`: split into slices of `size`. For
`size = 0` the source loop would not terminate; the Scheduler is only
constructed with `maxParallel ≥ 1`, and every theorem below assumes
`1 ≤ size`. -/
def chunk (l : List α) (size : Nat) : List (List α) :=
  match size with
  | 0 => []
  | k + 1 => chunkAux k l

/-- scheduler.ts `Scheduler.runParallel`: the batches run sequentially
(`await Promise.all` per batch), tasks within a batch in input order;
`exec` is the oracle mapping each spawned task to its result. The
returned list is the concatenation of the batch result lists. -/
def runParallel (tasks : List τ) (maxParallel : Nat) (exec : τ → ρ) : List ρ :=
  ((chunk tasks maxParallel).map (fun batch => batch.map exec)).flatten

/- ── Plan parser (plan-parser.ts) ────────────────────────────────────── -/

/-- JS regex `\w` (ASCII word character). -/
def isWordChar (c : Char) : Bool := c.isAlphanum || c = '_'

/-- JS regex `\s` (ASCII whitespace; the unicode spaces JS also accepts
do not occur in the inputs of interest). -/
def isSpaceChar (c : Char) : Bool :=
  c = ' ' || c = '\t' || c = '\n' || c = '\r' || c.toNat = 11 || c.toNat = 12

/-- JS `String.prototype.trim` on a character list. -/
def jsTrim (cs : List Char) : List Char :=
  ((cs.dropWhile isSpaceChar).reverse.dropWhile isSpaceChar).reverse

/-- Case-insensitive literal match (the parse regexes carry the `i`
flag): `lit` is given lowercased; consumes it from the front. -/
def matchLiteralCI (lit : List Char) : List Char → Option (List Char)
  | cs =>
    if (cs.take lit.length).map Char.toLower = lit then some (cs.drop lit.length)
    else none

/-- The marker core `###\s*ASSIGN\s*:` shared by the match head and the
lookahead of plan-parser.ts `parsePlan`'s assignment regex. The greedy
`\s*` needs no backtracking because whitespace can start neither `ASSIGN`
nor `:`. -/
def markerCore (cs : List Char) : Option (List Char) :=
  (matchLiteralCI "###".data cs).bind fun cs1 =>
    (matchLiteralCI "assign".data (cs1.dropWhile isSpaceChar)).bind fun cs2 =>
      matchLiteralCI ":".data (cs2.dropWhile isSpaceChar)

/-- The lazy tail of the role capture `(\w[\w\s]*?)[\n\r]`: extend over
word/space characters until the first newline; any other character makes
the whole match fail at this start position. -/
def matchRoleTail : List Char → Option (List Char × List Char)
  | [] => none
  | c :: rest =>
    if c = '\n' || c = '\r' then some ([], rest)
    else if isWordChar c || isSpaceChar c then
      (matchRoleTail rest).map fun p => (c :: p.1, p.2)
    else none

/-- The `\s*(\w[\w\s]*?)[\n\r]` part of the assignment regex: skip
whitespace, require a word character, then the lazy tail. Returns the raw
captured role and the rest after the terminating newline. -/
def matchRole (cs : List Char) : Option (List Char × List Char) :=
  match cs.dropWhile isSpaceChar with
  | [] => none
  | c :: rest =>
    if isWordChar c then
      (matchRoleTail rest).map fun p => (c :: p.1, p.2)
    else none

/-- The lazy body capture `([\s\S]*?)(?=###\s*ASSIGN\s*:|$)`: everything
up to the first position where the marker core matches, or to the end of
text. Returns the body and the remaining suffix (the lookahead position,
where the global regex resumes). -/
def findBody : List Char → List Char × List Char
  | [] => ([], [])
  | c :: rest =>
    if (markerCore (c :: rest)).isSome then ([], c :: rest)
    else
      let p := findBody rest
      (c :: p.1, p.2)

/-- One full match attempt of the assignment regex at the current
position: marker core, role capture, body capture. -/
def matchAssignAt (cs : List Char) :
    Option (List Char × List Char × List Char) :=
  (markerCore cs).bind fun cs1 =>
    (matchRole cs1).bind fun rp =>
      let bp := findBody rp.2
      some (rp.1, bp.1, bp.2)

/-- The `while ((match = assignRegex.exec(planText)) !== null)` scan:
try a match at each position left to right, resuming after a match at the
lookahead position. Fuel bounds the scan; every step consumes at least
one character, so fuel = input length is always sufficient. -/
def parseAssignLoop : Nat → List Char → List (List Char × List Char)
  | 0, _ => []
  | _ + 1, [] => []
  | fuel + 1, c :: rest =>
    match matchAssignAt (c :: rest) with
    | some m => (m.1, m.2.1) :: parseAssignLoop fuel m.2.2
    | none => parseAssignLoop fuel rest

/-- plan-parser.ts `ROLE_KEY_MAP`: surface role labels (uppercased) to
canonical role keys. -/
def ROLE_KEY_MAP : String → Option String
  | "ANALYST" => some "analyst"
  | "STRATEGIST" => some "strategist"
  | "DESIGNER" => some "designer"
  | "PIXEL" => some "designer"
  | "ARCHITECT" => some "architect"
  | "BLUEPRINT" => some "architect"
  | "BUILDER" => some "builder"
  | "QA" => some "qa"
  | "QA LEAD" => some "qa"
  | "GUARDIAN" => some "guardian"
  | "TESTER" => some "guardian"
  | "SENTINEL" => some "sentinel"
  | "REVIEWER" => some "sentinel"
  | "SECURITY" => some "security"
  | "SHIELD" => some "security"
  | "SCRIBE" => some "scribe"
  | "DOCS" => some "scribe"
  | "DOCUMENTATION" => some "scribe"
  | "DEVOPS" => some "devops"
  | "DEPLOY" => some "devops"
  | "DEPLOYMENT" => some "devops"
  | _ => none

/-- JS `Map.prototype.set`: overwrite in place when the key exists
(keeping insertion order), append otherwise. -/
def mapSet (m : List (String × String)) (k v : String) :
    List (String × String) :=
  if m.any (fun p => p.1 = k) then
    m.map (fun p => if p.1 = k then (k, v) else p)
  else m ++ [(k, v)]

/-- The per-match body of `parsePlan`'s while loop: uppercase and trim
the raw role, trim the body, look the role up and store the assignment
only when both the role resolves and the trimmed body is non-empty. -/
def applyAssign (m : List (String × String)) (rawRole body : List Char) :
    List (String × String) :=
  let roleName : String := ⟨(jsTrim rawRole).map Char.toUpper⟩
  let taskBody : String := ⟨jsTrim body⟩
  match ROLE_KEY_MAP roleName with
  | some key => if taskBody.isEmpty then m else mapSet m key taskBody
  | none => m

/-- The assignments map built by plan-parser.ts `parsePlan` (the modules
and overview extraction are independent scans not consulted by the
claims). -/
def parsePlanAssignments (text : String) : List (String × String) :=
  (parseAssignLoop text.data.length text.data).foldl
    (fun m rb => applyAssign m rb.1 rb.2) []

/- ── Agent result reconstruction (agents/spawner.ts) ─────────────────── -/

/-- The two fields of a parsed stream-json event that the `close` handler
of spawner.ts `spawnClaudeAgent` reads: whether `parsed.type ===
'result'`, and `parsed.result` (absent, or a string whose JS truthiness
is non-emptiness). `JSON.parse` itself is the platform's parser and is
passed in as an oracle `parse` returning `none` on non-JSON input. -/
structure JsonView where
  isResult : Bool
  result : Option String
  deriving Repr, DecidableEq

/-- JS `split` on a single-character separator. -/
def splitOnChar (sep : Char) : List Char → List (List Char)
  | [] => [[]]
  | c :: t =>
    let r := splitOnChar sep t
    if c = sep then [] :: r
    else
      match r with
      | [] => [[c]]
      | h :: t2 => (c :: h) :: t2

/-- `stdout.trim().split('\n')` from the `close` handler. -/
def linesOf (stdout : String) : List String :=
  (splitOnChar '\n' (jsTrim stdout.data)).map fun cs => ⟨cs⟩

/-- Does a line parse as a JSON event with `type === 'result'`? -/
def isResultLine (parse : String → Option JsonView) (l : String) : Bool :=
  match parse l with
  | some j => j.isResult
  | none => false

/-- The backward scan `for (let i = lines.length - 1; i >= 0; i--)`:
the last line parsing as a `result` event, later lines taking priority. -/
def findResultEvent (parse : String → Option JsonView) :
    List String → Option JsonView
  | [] => none
  | l :: ls =>
    match findResultEvent parse ls with
    | some j => some j
    | none =>
      match parse l with
      | some j => if j.isResult then some j else none
      | none => none

/-- `if (parsed.result) result.output = parsed.result` — the output is
replaced only by a truthy (non-empty) result string. -/
def truthyResult (j : JsonView) : Option String :=
  match j.result with
  | some r => if r.isEmpty then none else some r
  | none => none

/-- The final `result.output` computed by the `close` handler of
`spawnClaudeAgent`: scan the trimmed output lines backward for the last
`result` event; when none is found, try parsing the whole raw stream as a
single JSON object; in either case a missing or falsy `result` field
leaves the raw stream as the output. -/
def finalOutput (parse : String → Option JsonView) (stdout : String) : String :=
  match findResultEvent parse (linesOf stdout) with
  | some j => (truthyResult j).getD stdout
  | none =>
    match parse stdout with
    | some j => (truthyResult j).getD stdout
    | none => stdout

/-- A concrete stand-in for `JSON.parse` used to witness the
reconstruction theorem: exactly one line of the toy stream parses as a
terminal result event. -/
def parseToy : String → Option JsonView
  | "resultline" => some { isResult := true, result := some "final text" }
  | _ => none

lemma reviewOutput_count (redos : Nat) (role : String) (r : AgentResult) :
    (reviewOutput redos role r).2 =
      redos + (if (reviewOutput redos role r).1.verdict = .redo then 1 else 0) := by
  unfold reviewOutput
  by_cases h1 : r.output.trim.length < 50
  · by_cases h2 : r.success = true
    · simp [h1, h2]
    · by_cases h3 : redos < MAX_REDOS <;> simp [h1, h2, h3]
  · by_cases h4 : r.success = false ∧ redos < MAX_REDOS
    · simp [h1, h4]
    · cases hq : checkQuality role r.output with
      | some issue =>
        by_cases h5 : redos < MAX_REDOS <;> simp [h1, h4, hq, h5] <;>
          (try (split <;> simp))
      | none => simp [h1, h4, hq]

lemma reviewOutput_redo_lt (redos : Nat) (role : String) (r : AgentResult)
    (h : (reviewOutput redos role r).1.verdict = .redo) : redos < MAX_REDOS := by
  unfold reviewOutput at h
  by_cases h1 : r.output.trim.length < 50
  · by_cases h2 : r.success = true
    · simp [h1, h2] at h
    · by_cases h3 : redos < MAX_REDOS
      · exact h3
      · simp [h1, h2, h3] at h
  · by_cases h4 : r.success = false ∧ redos < MAX_REDOS
    · exact h4.2
    · cases hq : checkQuality role r.output with
      | some issue =>
        by_cases h5 : redos < MAX_REDOS
        · exact h5
        · simp [h1, h4, hq, h5] at h
      | none => simp [h1, h4, hq] at h

lemma reviewRun_count_le (role : String) (rs : List AgentResult) :
    ∀ redos, redos ≤ MAX_REDOS →
      (reviewRun role redos rs).2 + redos ≤ MAX_REDOS := by
  induction rs with
  | nil => intro redos h; simpa [reviewRun] using h
  | cons r rs ih =>
    intro redos h
    simp only [reviewRun]
    by_cases hv : (reviewOutput redos role r).1.verdict = .redo
    · have hlt := reviewOutput_redo_lt redos role r hv
      have hc := reviewOutput_count redos role r
      rw [hv] at hc; simp at hc
      have := ih (reviewOutput redos role r).2 (by omega)
      simp [hv]; omega
    · have hc := reviewOutput_count redos role r
      simp [hv] at hc
      have := ih (reviewOutput redos role r).2 (by omega)
      simp [hv]; omega

lemma reviewOutput_verdict_cases (redos : Nat) (role : String) (r : AgentResult) :
    (reviewOutput redos role r).1.verdict = .accept ∨
      (reviewOutput redos role r).1.verdict = .redo := by
  unfold reviewOutput
  by_cases h1 : r.output.trim.length < 50
  · by_cases h2 : r.success = true
    · simp [h1, h2]
    · by_cases h3 : redos < MAX_REDOS <;> simp [h1, h2, h3]
  · by_cases h4 : r.success = false ∧ redos < MAX_REDOS
    · simp [h1, h4]
    · cases hq : checkQuality role r.output with
      | some issue =>
        by_cases h5 : redos < MAX_REDOS <;> simp [h1, h4, hq, h5] <;>
          (try (split <;> simp))
      | none => simp [h1, h4, hq]

/- ── Supervisor helper lemmas ────────────────────────────────────────── -/

lemma classify_default (m u a : ℚ) :
    (classify DEFAULT_LIMITS m u a = .critical ↔
      m > 512 ∨ u > 900 ∨ a > 480) ∧
    (classify DEFAULT_LIMITS m u a = .warning ↔
      ¬(m > 512 ∨ u > 900 ∨ a > 480) ∧
        (m > 512 * 0.8 ∨ u > 900 * 0.8 ∨ a > 180)) ∧
    (classify DEFAULT_LIMITS m u a = .healthy ↔
      ¬(m > 512 ∨ u > 900 ∨ a > 480) ∧
        ¬(m > 512 * 0.8 ∨ u > 900 * 0.8 ∨ a > 180)) := by
  simp only [classify, DEFAULT_LIMITS]
  split_ifs with hc hw hw <;> simp_all

lemma runChecksStep_true (lim : SupervisorLimits) (m u a : ℚ) :
    (runChecksStep lim true m u a).warnings = 0 ∧
      (runChecksStep lim true m u a).warned = true := by
  unfold runChecksStep
  cases h : killDecision lim m u a <;> simp

lemma runChecksStep_false (lim : SupervisorLimits) (m u a : ℚ) :
    ((runChecksStep lim false m u a).warnings = 0 ∧
        (runChecksStep lim false m u a).warned = false) ∨
      ((runChecksStep lim false m u a).warnings = 1 ∧
        (runChecksStep lim false m u a).warned = true) := by
  unfold runChecksStep
  cases h : killDecision lim m u a
  · simp only []
    split_ifs <;> simp_all
  · simp

lemma runPolls_true (lim : SupervisorLimits) (polls : List (ℚ × ℚ × ℚ)) :
    runPolls lim true polls = 0 := by
  induction polls with
  | nil => rfl
  | cons s rest ih =>
    have h := runChecksStep_true lim s.1 s.2.1 s.2.2
    simp only [runPolls]
    split_ifs with hk
    · exact h.1
    · rw [h.1, h.2, ih]

/- ── Engine helper lemmas ────────────────────────────────────────────── -/

lemma runStageBlock_rev (skips resume : List String) (stage : String)
    (g : Bool) (st : RunState) :
    (runStageBlock skips resume stage g st).revisionCount = st.revisionCount := by
  unfold runStageBlock; split_ifs <;> rfl

lemma revisionStep_le (c : Nat) (out : String) (h : c ≤ MAX_REVISIONS) :
    (revisionStep c out).1 ≤ MAX_REVISIONS := by
  unfold revisionStep; split_ifs with h1
  · exact h1.2
  · exact h

lemma runRevisionBlock_rev_le (skips resume : List String) (stage out : String)
    (st : RunState) (h : st.revisionCount ≤ MAX_REVISIONS) :
    (runRevisionBlock skips resume stage out st).revisionCount ≤ MAX_REVISIONS := by
  unfold runRevisionBlock; split_ifs with h1
  · exact revisionStep_le st.revisionCount out h
  · exact h

/- ── Scheduler helper lemmas ─────────────────────────────────────────── -/

lemma chunkAux_flatten (k : Nat) (l : List α) :
    (chunkAux k l).flatten = l := by
  induction l using chunkAux.induct k with
  | case1 => simp [chunkAux]
  | case2 a l ih =>
    rw [chunkAux]
    simp only [List.flatten_cons, ih, List.take_succ_cons]
    simp [List.take_append_drop]

lemma chunkAux_mem_le (k : Nat) (l : List α) :
    ∀ b ∈ chunkAux k l, b.length ≤ k + 1 := by
  induction l using chunkAux.induct k with
  | case1 => simp [chunkAux]
  | case2 a l ih =>
    intro b hb
    rw [chunkAux] at hb
    rcases List.mem_cons.mp hb with h | h
    · subst h
      simpa using List.length_take_le (k + 1) (a :: l)
    · exact ih b h

lemma chunkAux_length (k : Nat) (l : List α) :
    (chunkAux k l).length = (l.length + k) / (k + 1) := by
  induction l using chunkAux.induct k with
  | case1 => simp [chunkAux, Nat.div_eq_of_lt (Nat.lt_succ_self k)]
  | case2 a l ih =>
    rw [chunkAux]
    simp only [List.length_cons, ih, List.length_drop]
    by_cases h : k ≤ l.length
    · have h1 : l.length - k + k = l.length := Nat.sub_add_cancel h
      rw [h1]
      have h2 : l.length + 1 + k = l.length + (k + 1) := by omega
      rw [h2, Nat.add_div_right _ (Nat.succ_pos k)]
    · have h1 : l.length - k = 0 := Nat.sub_eq_zero_of_le (le_of_not_le h)
      rw [h1]
      have h2 : k / (k + 1) = 0 := Nat.div_eq_of_lt (Nat.lt_succ_self k)
      rw [Nat.zero_add, h2]
      have h3 : (l.length + 1 + k) / (k + 1) = 1 := by
        apply Nat.div_eq_of_lt_le <;> omega
      omega

/- ── Result-reconstruction helper lemmas ─────────────────────────────── -/

lemma findResultEvent_none (parse : String → Option JsonView)
    (ls : List String) (h : ∀ x ∈ ls, isResultLine parse x = false) :
    findResultEvent parse ls = none := by
  induction ls with
  | nil => rfl
  | cons l ls ih =>
    have hl := h l (List.mem_cons_self l ls)
    have hrest := ih fun x hx => h x (List.mem_cons_of_mem l hx)
    rw [findResultEvent, hrest]
    unfold isResultLine at hl
    cases hp : parse l with
    | none => simp [hp]
    | some j =>
      rw [hp] at hl
      simp at hl
      simp [hp, hl]

lemma findResultEvent_last (parse : String → Option JsonView)
    (pre : List String) (l : String) (post : List String) (j : JsonView)
    (hpost : ∀ x ∈ post, isResultLine parse x = false)
    (hl : parse l = some j) (hr : j.isResult = true) :
    findResultEvent parse (pre ++ l :: post) = some j := by
  induction pre with
  | nil =>
    rw [List.nil_append, findResultEvent, findResultEvent_none parse post hpost,
      hl]
    simp [hr]
  | cons x pre ih =>
    rw [List.cons_append, findResultEvent, ih]

/- ── Claim theorems ──────────────────────────────────────────────────── -/

/-- C1: for every role, the Director issues at most `MAX_REDOS` (2) redo
verdicts over the whole run, and once the role's redo count has reached
the maximum, every disqualifying review outcome (failure with near-empty
output, failure with non-trivial output, or failed quality check) yields
verdict `accept` instead of `redo`. -/
theorem director_redo_budget (role : String) (results : List AgentResult)
    (r : AgentResult) (redos : Nat)
    (hmax : redos = MAX_REDOS) (hdq : disqualifying role r) :
    (reviewRun role 0 results).2 ≤ MAX_REDOS ∧
      (reviewOutput redos role r).1.verdict = .accept := by
  constructor
  · have h := reviewRun_count_le role results 0 (Nat.zero_le _)
    omega
  · rcases reviewOutput_verdict_cases redos role r with h | h
    · exact h
    · have := reviewOutput_redo_lt redos role r h
      omega

/-- Witness for C1: three consecutive failures of the builder produce
exactly two redos, and a further disqualifying failure at the cap is
accepted. -/
theorem director_redo_budget_witness :
    (reviewRun "builder" 0
        [⟨"", false, 1⟩, ⟨"", false, 1⟩, ⟨"", false, 1⟩]).2 ≤ MAX_REDOS ∧
      (reviewOutput 2 "builder" ⟨"", false, 1⟩).1.verdict = .accept :=
  director_redo_budget "builder"
    [⟨"", false, 1⟩, ⟨"", false, 1⟩, ⟨"", false, 1⟩]
    ⟨"", false, 1⟩ 2 rfl (Or.inl rfl)

/-- C2 counterexample: resuming a run whose persisted state has
`[analyzing, planning]` completed and letting it run to completion does
NOT persist a `completedStages` list equal to the original two stages
followed by the remaining canonical stages — `run` starts its local
`completedStages` array empty and never re-adds the resumed stages. -/
theorem resume_completed_stages_cex :
    ¬ (runEngine [] ["analyzing", "planning"]
        ⟨true, "", ""⟩).completedStages = CANONICAL_STAGES := by
  decide

/-- C2 amended: resuming a persisted run with `[analyzing, planning]`
completed (no skip list) and completing it persists a `completedStages`
list that is exactly the REMAINING stages in canonical order with no
duplicates; the two originally completed stages are absent, whatever the
review/security outputs are. -/
theorem resume_completed_stages (sOut secOut : String) :
    (runEngine [] ["analyzing", "planning"]
        ⟨true, sOut, secOut⟩).completedStages =
      ["designing", "architecting", "coding", "qa-planning", "testing",
       "reviewing", "securing", "documenting", "deploying"] ∧
    (runEngine [] ["analyzing", "planning"]
        ⟨true, sOut, secOut⟩).completedStages.Nodup := by
  have h : (runEngine [] ["analyzing", "planning"]
      ⟨true, sOut, secOut⟩).completedStages =
      ["designing", "architecting", "coding", "qa-planning", "testing",
       "reviewing", "securing", "documenting", "deploying"] := rfl
  exact ⟨h, by rw [h]; decide⟩

/-- C3: for every task list and concurrency ceiling `C ≥ 1`,
`Scheduler.runParallel` partitions the tasks into exactly `⌈N/C⌉`
ordered batches of size at most `C`, the batches concatenate back to the
input (batches are processed sequentially, so no task of batch k+1 runs
before batch k has fully resolved), and the returned results are in
batch order then within-batch input order — i.e. input order. -/
theorem scheduler_batching {τ ρ : Type} (tasks : List τ) (C : Nat)
    (exec : τ → ρ) (hC : 1 ≤ C) :
    (chunk tasks C).length = (tasks.length + C - 1) / C ∧
    (∀ b ∈ chunk tasks C, b.length ≤ C) ∧
    (chunk tasks C).flatten = tasks ∧
    runParallel tasks C exec = tasks.map exec := by
  obtain ⟨k, rfl⟩ : ∃ k, C = k + 1 := ⟨C - 1, by omega⟩
  refine ⟨?_, ?_, ?_, ?_⟩
  · have h : tasks.length + (k + 1) - 1 = tasks.length + k := by omega
    rw [chunk, chunkAux_length, h]
  · simpa [chunk] using chunkAux_mem_le k tasks
  · simp [chunk, chunkAux_flatten]
  · simp only [runParallel, chunk, ← List.map_flatten, chunkAux_flatten]

/-- Witness for C3: the spec's example — 5 tasks at ceiling 3 give two
batches of sizes 3 and 2, results in input order. -/
theorem scheduler_batching_witness :
    (1 : Nat) ≤ 3 ∧
      ((chunk [0, 1, 2, 3, 4] 3).length = ([0, 1, 2, 3, 4].length + 3 - 1) / 3 ∧
       (∀ b ∈ chunk [0, 1, 2, 3, 4] 3, b.length ≤ 3) ∧
       (chunk [0, 1, 2, 3, 4] 3).flatten = [0, 1, 2, 3, 4] ∧
       runParallel [0, 1, 2, 3, 4] 3 (fun t : Nat => t * 10) =
         [0, 1, 2, 3, 4].map (fun t => t * 10)) :=
  ⟨by norm_num,
   scheduler_batching [0, 1, 2, 3, 4] 3 (fun t => t * 10) (by norm_num)⟩

/-- C4: with the default limits, `getStats` classifies a process
`critical` iff memory exceeds 512MB or uptime exceeds 900s or the time
since last activity exceeds 480s; otherwise `warning` iff any of the
same three measures exceeds 80% of its limit or the activity age exceeds
the 180s hang-warning limit; otherwise `healthy`. -/
theorem supervisor_status_classification (m u a : ℚ) :
    (classify DEFAULT_LIMITS m u a = .critical ↔
      m > 512 ∨ u > 900 ∨ a > 480) ∧
    (classify DEFAULT_LIMITS m u a = .warning ↔
      ¬(m > 512 ∨ u > 900 ∨ a > 480) ∧
        (m > 512 * 0.8 ∨ u > 900 * 0.8 ∨ a > 480 * 0.8 ∨ a > 180)) ∧
    (classify DEFAULT_LIMITS m u a = .healthy ↔
      ¬(m > 512 ∨ u > 900 ∨ a > 480) ∧
        ¬(m > 512 * 0.8 ∨ u > 900 * 0.8 ∨ a > 480 * 0.8 ∨ a > 180)) := by
  obtain ⟨h1, h2, h3⟩ := classify_default m u a
  have hw : (m > (512 : ℚ) * 0.8 ∨ u > 900 * 0.8 ∨ a > 480 * 0.8 ∨ a > 180) ↔
      (m > (512 : ℚ) * 0.8 ∨ u > 900 * 0.8 ∨ a > 180) := by
    constructor
    · rintro (h | h | h | h)
      · exact Or.inl h
      · exact Or.inr (Or.inl h)
      · refine Or.inr (Or.inr ?_)
        norm_num at h ⊢
        linarith
      · exact Or.inr (Or.inr h)
    · rintro (h | h | h)
      · exact Or.inl h
      · exact Or.inr (Or.inl h)
      · exact Or.inr (Or.inr (Or.inr h))
  refine ⟨h1, ?_, ?_⟩
  · rw [h2, hw]
  · rw [h3, hw]

/-- C5: a review/security output containing `NEEDS_REVISION` with the
revision counter below the maximum re-enters the coding stage exactly
once and increments the counter by one; at the maximum it does not
re-enter; and over a whole engine run the revision counter never exceeds
the maximum (2). -/
theorem engine_revision_bound (c : Nat) (out : String)
    (skips resume : List String) (env : RunEnv) :
    (strContains out "NEEDS_REVISION" = true → c < MAX_REVISIONS →
      revisionStep c out = (c + 1, true)) ∧
    (c = MAX_REVISIONS → revisionStep c out = (c, false)) ∧
    (runEngine skips resume env).revisionCount ≤ MAX_REVISIONS := by
  refine ⟨?_, ?_, ?_⟩
  · intro h1 h2
    simp [revisionStep, h1, h2]
  · intro h
    subst h
    simp [revisionStep, MAX_REVISIONS]
  · have hsb := runStageBlock_rev skips resume
    simp only [runEngine]
    rw [hsb, hsb]
    apply runRevisionBlock_rev_le
    apply runRevisionBlock_rev_le
    rw [hsb, hsb, hsb, hsb, hsb, hsb, hsb]
    norm_num

/-- Witness for C5: `NEEDS_REVISION` at counter 0 yields one coding
re-entry with the counter at 1; at the cap 2 there is no re-entry; a
full default run stays within the bound. -/
theorem engine_revision_bound_witness :
    (revisionStep 0 "NEEDS_REVISION" = (0 + 1, true)) ∧
    (revisionStep 2 "NEEDS_REVISION" = (2, false)) ∧
    (runEngine [] [] ⟨true, "NEEDS_REVISION", "NEEDS_REVISION"⟩).revisionCount ≤
      MAX_REVISIONS :=
  ⟨(engine_revision_bound 0 "NEEDS_REVISION" [] []
      ⟨true, "", ""⟩).1 (by decide) (by decide),
   (engine_revision_bound 2 "NEEDS_REVISION" [] []
      ⟨true, "", ""⟩).2.1 rfl,
   (engine_revision_bound 0 "" [] []
      ⟨true, "NEEDS_REVISION", "NEEDS_REVISION"⟩).2.2⟩

/-- C6: a tracked process receives at most one `warning` event over its
entire lifetime — once the one-shot `warned` flag is set it is never
reset, and a poll of an already-warned process emits no warning and
keeps the flag set. -/
theorem supervisor_warns_at_most_once (lim : SupervisorLimits)
    (polls : List (ℚ × ℚ × ℚ)) (m u a : ℚ) :
    runPolls lim false polls ≤ 1 ∧
      (runChecksStep lim true m u a).warnings = 0 ∧
      (runChecksStep lim true m u a).warned = true := by
  refine ⟨?_, (runChecksStep_true lim m u a).1, (runChecksStep_true lim m u a).2⟩
  induction polls with
  | nil => simp [runPolls]
  | cons s rest ih =>
    simp only [runPolls]
    rcases runChecksStep_false lim s.1 s.2.1 s.2.2 with ⟨h0, hw⟩ | ⟨h1, hw⟩
    · split_ifs with hk
      · omega
      · rw [h0, hw]
        simpa using ih
    · split_ifs with hk
      · omega
      · rw [h1, hw, runPolls_true]

/-- C7: `parsePlan` on `### ASSIGN:BUILDER\nDo X` followed by
`### ASSIGN:QA\nDo Y` yields exactly the assignments
`{builder ↦ "Do X", qa ↦ "Do Y"}`; role labels resolve through the alias
table (`TESTER` ↦ guardian); an unterminated final block runs to the end
of the text; a recognized role with an empty block body is not stored. -/
theorem plan_parser_assignments :
    parsePlanAssignments "### ASSIGN:BUILDER\nDo X\n### ASSIGN:QA\nDo Y" =
      [("builder", "Do X"), ("qa", "Do Y")] ∧
    parsePlanAssignments "### ASSIGN:TESTER\nDo tests" =
      [("guardian", "Do tests")] ∧
    parsePlanAssignments "### ASSIGN:QA\nDo Y tail runs to end" =
      [("qa", "Do Y tail runs to end")] ∧
    parsePlanAssignments "### ASSIGN:BUILDER\n\n### ASSIGN:QA\nDo Y" =
      [("qa", "Do Y")] := by
  decide

/-- C8: the final textual result of a finished worker is the last output
line that parses as a JSON `result` event (non-JSON lines and earlier
events are skipped); when no such line exists and the raw stream does not
itself parse as JSON, the whole raw stream is the result. -/
theorem agent_result_reconstruction (parse : String → Option JsonView)
    (stdout : String) :
    ((∀ x ∈ linesOf stdout, isResultLine parse x = false) →
      parse stdout = none → finalOutput parse stdout = stdout) ∧
    (∀ pre l post j r,
      linesOf stdout = pre ++ l :: post →
      (∀ x ∈ post, isResultLine parse x = false) →
      parse l = some j → j.isResult = true → j.result = some r →
      r.isEmpty = false →
      finalOutput parse stdout = r) := by
  constructor
  · intro hnone hraw
    unfold finalOutput
    rw [findResultEvent_none parse _ hnone, hraw]
  · intro pre l post j r hsplit hpost hl hres hjr hne
    unfold finalOutput
    rw [hsplit, findResultEvent_last parse pre l post j hpost hl hres]
    simp [truthyResult, hjr, hne]

/-- Witness for C8: a two-line stream whose last line is the terminal
result event reconstructs to that event's result text. -/
theorem agent_result_reconstruction_witness :
    linesOf "telemetry\nresultline" = ["telemetry"] ++ "resultline" :: [] ∧
      finalOutput parseToy "telemetry\nresultline" = "final text" :=
  ⟨by decide,
   (agent_result_reconstruction parseToy "telemetry\nresultline").2
     ["telemetry"] "resultline" [] ⟨true, some "final text"⟩ "final text"
     (by decide) (by simp) (by decide) (by decide) (by decide) (by decide)⟩

/-- C9: one `runDirectedAgent` call executes the agent at most twice: a
second execution happens exactly when the first review's verdict is
`redo` with a correction, the returned result is then the second run's,
and the second review's verdict never triggers another execution even
when the redo budget would still permit one. -/
theorem directed_agent_at_most_two (redos : Nat) (role : String)
    (r1 r2 : AgentResult) :
    (runDirectedAgent redos role r1 r2).executions ≤ 2 ∧
    ((runDirectedAgent redos role r1 r2).executions =
      if (reviewOutput redos role r1).1.verdict = .redo ∧
          correctionTruthy (reviewOutput redos role r1).1.correction = true
      then 2 else 1) ∧
    ((runDirectedAgent redos role r1 r2).finalResult =
      if (reviewOutput redos role r1).1.verdict = .redo ∧
          correctionTruthy (reviewOutput redos role r1).1.correction = true
      then r2 else r1) := by
  unfold runDirectedAgent
  split_ifs with h <;> simp [h]

/-- C10: a tracked pid with no row in the batched resource query reports
`memoryMB = 0` and `cpuPercent = 0`; with the default limits it can then
never be classified warning or critical on the memory measure, and the
only kill reasons available to it are the uptime and no-output (hang)
thresholds. -/
theorem missing_resource_zero (u a : ℚ) :
    (statsFor DEFAULT_LIMITS none u a).memoryMB = 0 ∧
    (statsFor DEFAULT_LIMITS none u a).cpuPercent = 0 ∧
    ((statsFor DEFAULT_LIMITS none u a).status = .critical ↔
      u > 900 ∨ a > 480) ∧
    ((statsFor DEFAULT_LIMITS none u a).status = .warning ↔
      ¬(u > 900 ∨ a > 480) ∧ (u > 900 * 0.8 ∨ a > 180)) ∧
    killDecision DEFAULT_LIMITS 0 u a ≠ some .memory ∧
    (killDecision DEFAULT_LIMITS 0 u a =
      if u > 900 then some .timeout else if a > 480 then some .hung
      else none) := by
  obtain ⟨h1, h2, h3⟩ := classify_default 0 u a
  have hst : (statsFor DEFAULT_LIMITS none u a).status =
      classify DEFAULT_LIMITS 0 u a := rfl
  norm_num at h1 h2
  refine ⟨rfl, rfl, ?_, ?_, ?_, ?_⟩
  · rw [hst, h1]
  · rw [hst, h2]; norm_num
  · simp [killDecision, DEFAULT_LIMITS]
    split_ifs <;> simp_all
  · simp only [killDecision, DEFAULT_LIMITS]
    norm_num

end Krenk
